import Mathlib

/-!
Shallow embedding of the `argentum-gb` Game Boy emulator core and proofs
about it.  The files `cpu.rs`, `ppu.rs` and `gameboy.rs` of
`argentum-core` are embedded directly.  The bus, the register file and
the instruction implementations are not part of the available sources,
so they are modelled from the specification (each such definition is
marked `Modelled from the spec:` in its doc comment).

Machine integers are embedded as `Nat` with explicit wrap-around
(`% 256`, `% 65536`) exactly at the operations where the Rust code uses
wrapping arithmetic.  Byte memories (ROM, RAM, VRAM, OAM, the two
framebuffers) are embedded as functions `Nat → Nat`; a store writes the
value reduced mod 256, matching the `u8` cell type.
-/

namespace Argentum

/-- 8-bit wrapping addition, `u8::wrapping_add`. -/
def wadd8 (a b : Nat) : Nat := (a + b) % 256

/-- 8-bit wrapping subtraction, `u8::wrapping_sub`. -/
def wsub8 (a b : Nat) : Nat := (a % 256 + 256 - b % 256) % 256

/-- 16-bit wrapping addition, `u16::wrapping_add`. -/
def wadd16 (a b : Nat) : Nat := (a + b) % 65536

/-- 16-bit wrapping subtraction, `u16::wrapping_sub`. -/
def wsub16 (a b : Nat) : Nat := (a % 65536 + 65536 - b % 65536) % 65536

/-- Fixed RGBA palette, `COLOR_PALETTE` in `ppu.rs` (shades 0..3). -/
def COLOR_PALETTE : Nat → Nat
  | 0 => 0xFED018FF
  | 1 => 0xD35600FF
  | 2 => 0x5E1210FF
  | 3 => 0x0D0405FF
  | _ => 0

/-- Sprite data as stored in OAM (`struct Sprite` in `ppu.rs`). -/
structure Sprite where
  y : Nat
  x : Nat
  tile_number : Nat
  flags : Nat
deriving DecidableEq, Repr

/-- The modes the PPU can be in (`enum PpuModes`, discriminants 0..3). -/
inductive PpuModes where
  | HBlank
  | VBlank
  | OamSearch
  | Drawing
deriving DecidableEq, Repr

/-- Numeric value of a mode (`PpuModes as u8`). -/
def PpuModes.toNat : PpuModes → Nat
  | .HBlank => 0
  | .VBlank => 1
  | .OamSearch => 2
  | .Drawing => 3

/-- The Game Boy PPU (`struct Ppu` in `ppu.rs`).  `lcdc` and `stat` are
kept as raw bytes; the bitflag constants of the source become `testBit`
positions (LCD_ENABLE = bit 7, WINDOW_SELECT = 6, WINDOW_ENABLE = 5,
TILE_DATA = 4, BG_SELECT = 3, SPRITE_SIZE = 2, SPRITE_ENABLE = 1,
BG_WIN_ENABLE = 0; COINCIDENCE_INT = 6, OAM_INT = 5, VBLANK_INT = 4,
HBLANK_INT = 3, COINCIDENCE_FLAG = 2). -/
structure Ppu where
  vram : Nat → Nat
  oam : Nat → Nat
  ly : Nat
  lyc : Nat
  lcdc : Nat
  stat : Nat
  scy : Nat
  scx : Nat
  bgp : Nat
  obp0 : Nat
  obp1 : Nat
  wx : Nat
  wy : Nat
  window_line : Nat
  current_mode : PpuModes
  total_cycles : Nat
  back_framebuffer : Nat → Nat
  front_framebuffer : Nat → Nat

/-- Embedding of `Ppu::read_byte`.  The `unreachable!()` arm is mapped to 0xFF. -/
def Ppu.read_byte (p : Ppu) (addr : Nat) : Nat :=
  if 0x8000 ≤ addr ∧ addr ≤ 0x9FFF then p.vram (addr - 0x8000)
  else if 0xFE00 ≤ addr ∧ addr ≤ 0xFE9F then p.oam (addr - 0xFE00)
  else if addr = 0xFF40 then p.lcdc
  else if addr = 0xFF41 then p.current_mode.toNat ||| p.stat ||| 128
  else if addr = 0xFF42 then p.scy
  else if addr = 0xFF43 then p.scx
  else if addr = 0xFF44 then p.ly
  else if addr = 0xFF45 then p.lyc
  else if addr = 0xFF47 then p.bgp
  else if addr = 0xFF48 then p.obp0
  else if addr = 0xFF49 then p.obp1
  else if addr = 0xFF4A then p.wy
  else if addr = 0xFF4B then p.wx
  else 0xFF

/-- Embedding of `Ppu::write_byte`.  `Lcdc::from_bits_truncate` keeps all 8 bits,
`Stat::from_bits_truncate` keeps the defined bits 0x7C; a write to
0xFF44 (LY) is ignored; the `unreachable!()` arm is a no-op. -/
def Ppu.write_byte (p : Ppu) (addr value : Nat) : Ppu :=
  if 0x8000 ≤ addr ∧ addr ≤ 0x9FFF then
    { p with vram := fun i => if i = addr - 0x8000 then value % 256 else p.vram i }
  else if 0xFE00 ≤ addr ∧ addr ≤ 0xFE9F then
    { p with oam := fun i => if i = addr - 0xFE00 then value % 256 else p.oam i }
  else if addr = 0xFF40 then { p with lcdc := value % 256 }
  else if addr = 0xFF41 then { p with stat := Nat.land value 0x7C }
  else if addr = 0xFF42 then { p with scy := value % 256 }
  else if addr = 0xFF43 then { p with scx := value % 256 }
  else if addr = 0xFF44 then p
  else if addr = 0xFF45 then { p with lyc := value % 256 }
  else if addr = 0xFF47 then { p with bgp := value % 256 }
  else if addr = 0xFF48 then { p with obp0 := value % 256 }
  else if addr = 0xFF49 then { p with obp1 := value % 256 }
  else if addr = 0xFF4A then { p with wy := value % 256 }
  else if addr = 0xFF4B then { p with wx := value % 256 }
  else p

/-- Embedding of `Ppu::draw_pixel`: write the four big-endian bytes of `colour` into
the back framebuffer at pixel `(x, y)`. -/
def Ppu.draw_pixel (p : Ppu) (x y colour : Nat) : Ppu :=
  let offset := y * 160 * 4 + x * 4
  { p with back_framebuffer := fun i =>
      if i = offset then colour / 2 ^ 24 % 256
      else if i = offset + 1 then colour / 2 ^ 16 % 256
      else if i = offset + 2 then colour / 2 ^ 8 % 256
      else if i = offset + 3 then colour % 256
      else p.back_framebuffer i }

/-- Embedding of `Ppu::get_pixel`: read back the RGBA colour at `(x, y)`. -/
def Ppu.get_pixel (p : Ppu) (x y : Nat) : Nat :=
  let offset := y * 160 * 4 + x * 4
  (p.back_framebuffer offset <<< 24) ||| (p.back_framebuffer (offset + 1) <<< 16) |||
    (p.back_framebuffer (offset + 2) <<< 8) ||| p.back_framebuffer (offset + 3)

/-- Window tile-map base of `render_background` (`win_map`). -/
def Ppu.win_map (p : Ppu) : Nat := if p.lcdc.testBit 6 then 0x1C00 else 0x1800

/-- Background tile-map base of `render_background` (`bgd_map`). -/
def Ppu.bgd_map (p : Ppu) : Nat := if p.lcdc.testBit 3 then 0x1C00 else 0x1800

/-- Tile-data base of `render_background` (`tile_data`). -/
def Ppu.tile_data_base (p : Ppu) : Nat := if p.lcdc.testBit 4 then 0x0000 else 0x1000

/-- The window condition of `render_background` for column `x`:
`WINDOW_ENABLE && wy <= ly && wx <= x + 7`. -/
def Ppu.bgWindowCond (p : Ppu) (x : Nat) : Bool :=
  p.lcdc.testBit 5 && decide (p.wy ≤ p.ly) && decide (p.wx ≤ x + 7)

/-- Map coordinates and tile map chosen by `render_background` for
column `x`: the window pair `(x+7-wx, window_line)` or the scrolled
background pair `((x+scx) mod 256, (ly+scy) mod 256)`. -/
def Ppu.bgCoords (p : Ppu) (x : Nat) : Nat × Nat × Nat :=
  if p.bgWindowCond x then (wsub8 (wadd8 x 7) p.wx, p.window_line, p.win_map)
  else (wadd8 x p.scx, wadd8 p.ly p.scy, p.bgd_map)

/-- The VRAM index of the tile-number byte:
`tile_map + (((map_y >> 3) << 5) & 0x3FF) + ((map_x >> 3) & 0x1F)`. -/
def tile_number_index (tile_map map_x map_y : Nat) : Nat :=
  tile_map + Nat.land (map_y / 8 * 32) 0x3FF + Nat.land (map_x / 8) 0x1F

/-- The VRAM address of the tile row.  Unsigned addressing when
`tile_data = 0x0000`; signed addressing (`tile_number as i8 as i16 as
u16`, shifted and added with `u16` wrap-around) when `tile_data =
0x1000`. -/
def tile_row_address (tile_data tile_number tile_y : Nat) : Nat :=
  if tile_data = 0 then tile_data + tile_number * 16 + tile_y * 2
  else
    let tn16 := if tile_number % 256 < 128 then tile_number % 256 else tile_number % 256 + 0xFF00
    wadd16 (wadd16 tile_data (tn16 * 16 % 65536)) (tile_y * 2)

/-- The pair of VRAM indices used by `render_background` at column `x`:
the tile-number index and the tile-row address (`map_x` is the first
component of `bgCoords`, `map_y` the second, the tile map the third;
`tile_y = map_y & 7`). -/
def Ppu.bgIndices (p : Ppu) (x : Nat) : Nat × Nat :=
  let mc := p.bgCoords x
  let tni := tile_number_index mc.2.2 mc.1 mc.2.1
  let tile_number := p.vram tni
  (tni, tile_row_address p.tile_data_base tile_number (Nat.land mc.2.1 0x07))

/-- One iteration of the pixel loop of `render_background`: compute the
tile row, extract the 2-bit colour, translate through BGP and draw.
Returns the updated PPU together with the
`increment_window_counter` contribution of this column. -/
def Ppu.bgDrawPixel (p : Ppu) (x : Nat) : Ppu × Bool :=
  let tile_x := Nat.land (p.bgCoords x).1 0x07
  let address := (p.bgIndices x).2
  let lsb := p.vram address
  let msb := p.vram (address + 1)
  let custom_colour := (Nat.land (msb >>> (7 - tile_x)) 0x01 <<< 1) |||
    Nat.land (lsb >>> (7 - tile_x)) 0x01
  let actual_colour := COLOR_PALETTE (Nat.land (p.bgp >>> (custom_colour <<< 1)) 0x03)
  (p.draw_pixel x p.ly actual_colour, p.bgWindowCond x)

/-- The fold body of the pixel loop of `render_background`, carrying
the `increment_window_counter` flag. -/
def Ppu.bgStep (acc : Ppu × Bool) (x : Nat) : Ppu × Bool :=
  ((acc.1.bgDrawPixel x).1, acc.2 || (acc.1.bgDrawPixel x).2)

/-- Embedding of `Ppu::render_background`.  The tile-map/tile-data selections read
only PPU registers that the pixel loop never modifies, so recomputing
them per pixel (inside `bgCoords` and `bgIndices`) is equivalent to
hoisting them before the loop as the source does. -/
def Ppu.render_background (p : Ppu) : Ppu :=
  if ¬ p.lcdc.testBit 0 then p
  else
    let p := if p.ly = 0 then { p with window_line := 0 } else p
    let r := (List.range 160).foldl Ppu.bgStep (p, false)
    { r.1 with window_line := r.1.window_line + (if r.2 then 1 else 0) }

/-- Sprite height: 16 when `SPRITE_SIZE` is set, else 8. -/
def Ppu.sprite_size (p : Ppu) : Nat := if p.lcdc.testBit 2 then 16 else 8

/-- Rust `Iterator::enumerate`, starting from `n`. -/
def enumFromN (n : Nat) : List α → List (Nat × α)
  | [] => []
  | a :: l => (n, a) :: enumFromN (n + 1) l

/-- The OAM scan of `render_sprites`: walk the 40 four-byte OAM entries,
keep the sprites visible on line `ly` (with `y - 16` and `x - 8`
wrapping adjustments, and bit 0 of the tile number forced to 0 in 8x16
mode), take the first 10 and enumerate them. -/
def Ppu.collectSprites (p : Ppu) : List (Nat × Sprite) :=
  enumFromN 0 <| List.take 10 <| (List.range 40).filterMap fun i =>
    let y := wsub8 (p.oam (4 * i)) 16
    let x := wsub8 (p.oam (4 * i + 1)) 8
    let tile_number :=
      if p.sprite_size = 16 then Nat.land (p.oam (4 * i + 2)) 0xFE else p.oam (4 * i + 2)
    let flags := p.oam (4 * i + 3)
    if y ≤ p.ly ∧ p.ly < wadd8 y p.sprite_size then
      some ⟨y, x, tile_number, flags⟩
    else none

/-- Three-way comparison on `Nat`, the Rust `Ord::cmp` for `u8`/`usize`. -/
def cmpNat (a b : Nat) : Ordering :=
  if a < b then .lt else if b < a then .gt else .eq

/-- The Rust `Ordering::reverse`. -/
def ordSwap : Ordering → Ordering
  | .lt => .gt
  | .eq => .eq
  | .gt => .lt

/-- The sprite draw-order comparator passed to `sort_by` in
`render_sprites`: compare the (wrapping-adjusted) X coordinates and
reverse; on equal X compare the enumeration indices and reverse. -/
def spriteCmp (a b : Nat × Sprite) : Ordering :=
  let res := cmpNat a.2.x b.2.x
  if res = .eq then ordSwap (cmpNat a.1 b.1) else ordSwap res

/-- Insert into a sorted list, keeping the stable order of
`slice::sort_by` (an element moves past `b` only when strictly
greater). -/
def insertCmp (cmp : α → α → Ordering) (a : α) : List α → List α
  | [] => [a]
  | b :: l => if cmp a b = .gt then b :: insertCmp cmp a l else a :: b :: l

/-- Stable insertion sort, the embedding of `slice::sort_by`. -/
def sortCmp (cmp : α → α → Ordering) : List α → List α
  | [] => []
  | a :: l => insertCmp cmp a (sortCmp cmp l)

/-- The tile row of the sprite on line `ly` (`tile_y` in
`render_sprites`), honouring the Y-flip flag (bit 6). -/
def Ppu.spriteTileY (p : Ppu) (s : Sprite) : Nat :=
  if s.flags.testBit 6 then p.sprite_size - (p.ly - s.y + 1) else p.ly - s.y

/-- The 2-bit colour index of a sprite pixel at column offset `x`
(0..7) given the two bitplane bytes, honouring the X-flip flag
(bit 5). -/
def spriteColourIndexBits (flags lsb msb x : Nat) : Nat :=
  if flags.testBit 5 then
    (Nat.land (msb >>> x) 0x01 <<< 1) ||| Nat.land (lsb >>> x) 0x01
  else
    (Nat.land (msb >>> (7 - x)) 0x01 <<< 1) ||| Nat.land (lsb >>> (7 - x)) 0x01

/-- The RGBA colour of a sprite pixel: the colour index translated
through OBP1 (flag bit 4 set) or OBP0. -/
def Ppu.spritePaletteColour (p : Ppu) (flags colour_index : Nat) : Nat :=
  COLOR_PALETTE
    (Nat.land ((if flags.testBit 4 then p.obp1 else p.obp0) >>> (colour_index <<< 1)) 0x03)

/-- One iteration of the 8-column loop of `render_sprites` for column
offset `x`, given the two bitplane bytes of the sprite row.  Draws only
when `actual_x ≤ 160`, the colour index is opaque, and either the
sprite-over-background flag (bit 7 clear) holds or the present pixel is
shade 0. -/
def Ppu.drawSpriteCol (p : Ppu) (s : Sprite) (lsb msb x : Nat) : Ppu :=
  let actual_x := wadd8 s.x x
  if actual_x ≤ 160 then
    let colour_index := spriteColourIndexBits s.flags lsb msb x
    let colour := p.spritePaletteColour s.flags colour_index
    if colour_index ≠ 0 then
      if ¬ s.flags.testBit 7 then p.draw_pixel actual_x p.ly colour
      else if p.get_pixel actual_x p.ly = COLOR_PALETTE 0 then p.draw_pixel actual_x p.ly colour
      else p
    else p
  else p

/-- The per-sprite body of the render loop of `render_sprites`: fetch
the two bitplanes of the sprite row and run the 8-column loop. -/
def Ppu.drawSprite (p : Ppu) (s : Sprite) : Ppu :=
  let tile_y := p.spriteTileY s
  let address := s.tile_number * 16 + tile_y * 2
  let lsb := p.vram address
  let msb := p.vram (address + 1)
  (List.range 8).foldl (fun q x => q.drawSpriteCol s lsb msb x) p

/-- The fold body of the render loop of `render_sprites` (the `for
(_, sprite) in sprites` loop drops the enumeration index). -/
def Ppu.spriteStep (q : Ppu) (e : Nat × Sprite) : Ppu := q.drawSprite e.2

/-- Embedding of `Ppu::render_sprites`: gated by `SPRITE_ENABLE`; collect, sort by
draw order and draw each sprite in order. -/
def Ppu.render_sprites (p : Ppu) : Ppu :=
  if ¬ p.lcdc.testBit 1 then p
  else (sortCmp spriteCmp p.collectSprites).foldl Ppu.spriteStep p

/-- Embedding of `Ppu::render_scanline`. -/
def Ppu.render_scanline (p : Ppu) : Ppu :=
  p.render_background.render_sprites

/-- Embedding of `Ppu::change_mode`, returning the PPU and the updated IF byte. -/
def Ppu.change_mode (p : Ppu) (mode : PpuModes) (ifr : Nat) : Ppu × Nat :=
  match mode with
  | .HBlank =>
    let p := { p with current_mode := mode }
    let p := p.render_scanline
    (p, if p.stat.testBit 3 then ifr ||| 0x02 else ifr)
  | .VBlank =>
    let p := { p with current_mode := mode }
    let ifr := ifr ||| 0x01
    (p, if p.stat.testBit 4 then ifr ||| 0x02 else ifr)
  | .OamSearch =>
    let p := { p with current_mode := mode }
    (p, if p.stat.testBit 5 then ifr ||| 0x02 else ifr)
  | .Drawing => ({ p with current_mode := mode }, ifr)

/-- Embedding of `Ppu::compare_lyc`: set or clear the coincidence flag (bit 2 of
STAT); request a STAT interrupt when the coincidence interrupt bit is
also set. -/
def Ppu.compare_lyc (p : Ppu) (ifr : Nat) : Ppu × Nat :=
  if p.ly = p.lyc then
    let p := { p with stat := p.stat ||| 0x04 }
    (p, if p.stat.testBit 6 then ifr ||| 0x02 else ifr)
  else ({ p with stat := Nat.land p.stat 0xFB }, ifr)

/-- Embedding of `Ppu::tick`: advance the PPU by one M cycle (4 T cycles), driving
the OAM-search → Drawing → HBlank → VBlank state machine.  `ly + 1` is
the `u8` increment of the source, which never wraps on reachable states
(`ly ≤ 153`). -/
def Ppu.tick (p : Ppu) (ifr : Nat) : Ppu × Nat :=
  if ¬ p.lcdc.testBit 7 then (p, ifr)
  else
    let p := { p with total_cycles := p.total_cycles + 4 }
    match p.current_mode with
    | .OamSearch =>
      if 80 ≤ p.total_cycles then
        Ppu.change_mode { p with total_cycles := p.total_cycles - 80 } .Drawing ifr
      else (p, ifr)
    | .Drawing =>
      if 172 ≤ p.total_cycles then
        Ppu.change_mode { p with total_cycles := p.total_cycles - 172 } .HBlank ifr
      else (p, ifr)
    | .HBlank =>
      if 204 ≤ p.total_cycles then
        let p := { p with total_cycles := p.total_cycles - 204, ly := p.ly + 1 }
        let r := if p.ly = 0x90 then p.change_mode .VBlank ifr else p.change_mode .OamSearch ifr
        r.1.compare_lyc r.2
      else (p, ifr)
    | .VBlank =>
      if 456 ≤ p.total_cycles then
        let p := { p with total_cycles := p.total_cycles - 456, ly := p.ly + 1 }
        let r :=
          if p.ly = 154 then
            let p := { p with front_framebuffer := p.back_framebuffer, ly := 0 }
            p.change_mode .OamSearch ifr
          else (p, ifr)
        r.1.compare_lyc r.2
      else (p, ifr)

/-- Modelled from the spec: `bus.rs` is not among the sources.  Bus
state per §3: ROM, 8 KiB work RAM, 127 B high RAM, the IE byte, the IF
byte, and the embedded PPU.  `tickCount` is ghost instrumentation that
counts the `tick()` calls so that cycle-accounting claims can be
stated; it influences nothing. -/
structure Bus where
  rom : Nat → Nat
  wram : Nat → Nat
  hram : Nat → Nat
  ie_flag : Nat
  if_flag : Nat
  ppu : Ppu
  tickCount : Nat

/-- Modelled from the spec: `Bus::tick` (§4.2) advances all attached
devices — currently only the PPU — by one machine cycle. -/
def Bus.tick (b : Bus) : Bus :=
  { b with
    ppu := (b.ppu.tick b.if_flag).1
    if_flag := (b.ppu.tick b.if_flag).2
    tickCount := b.tickCount + 1 }

/-- Modelled from the spec: `Bus::read_byte` (§4.2), a pure read over
the address-decode table; unmapped I/O (including the joypad register,
which no claim touches) reads 0xFF; the IF byte reads with its upper
three bits set. -/
def Bus.read_byte (b : Bus) (addr : Nat) : Nat :=
  if addr ≤ 0x7FFF then b.rom addr
  else if addr ≤ 0x9FFF then b.ppu.read_byte addr
  else if 0xC000 ≤ addr ∧ addr ≤ 0xDFFF then b.wram (addr - 0xC000)
  else if 0xE000 ≤ addr ∧ addr ≤ 0xFDFF then b.wram (addr - 0xE000)
  else if 0xFE00 ≤ addr ∧ addr ≤ 0xFE9F then b.ppu.read_byte addr
  else if addr = 0xFF0F then b.if_flag ||| 0xE0
  else if 0xFF40 ≤ addr ∧ addr ≤ 0xFF4B then b.ppu.read_byte addr
  else if 0xFF80 ≤ addr ∧ addr ≤ 0xFFFE then b.hram (addr - 0xFF80)
  else if addr = 0xFFFF then b.ie_flag
  else 0xFF

/-- Modelled from the spec: `Bus::write_byte` (§4.2), a pure write;
writes to ROM and unmapped I/O are dropped. -/
def Bus.write_byte (b : Bus) (addr value : Nat) : Bus :=
  if addr ≤ 0x7FFF then b
  else if addr ≤ 0x9FFF then { b with ppu := b.ppu.write_byte addr value }
  else if 0xC000 ≤ addr ∧ addr ≤ 0xDFFF then
    { b with wram := fun i => if i = addr - 0xC000 then value % 256 else b.wram i }
  else if 0xE000 ≤ addr ∧ addr ≤ 0xFDFF then
    { b with wram := fun i => if i = addr - 0xE000 then value % 256 else b.wram i }
  else if 0xFE00 ≤ addr ∧ addr ≤ 0xFE9F then { b with ppu := b.ppu.write_byte addr value }
  else if addr = 0xFF0F then { b with if_flag := value % 256 }
  else if 0xFF40 ≤ addr ∧ addr ≤ 0xFF4B then { b with ppu := b.ppu.write_byte addr value }
  else if 0xFF80 ≤ addr ∧ addr ≤ 0xFFFE then
    { b with hram := fun i => if i = addr - 0xFF80 then value % 256 else b.hram i }
  else if addr = 0xFFFF then { b with ie_flag := value % 256 }
  else b

/-- Modelled from the spec: `registers.rs` is not among the sources.
Register file per §3/§4.1: eight 8-bit registers plus `SP` and `PC`. -/
structure Registers where
  a : Nat
  f : Nat
  b : Nat
  c : Nat
  d : Nat
  e : Nat
  h : Nat
  l : Nat
  sp : Nat
  pc : Nat

/-- Modelled from the spec: the `HL` pair view, high byte `h`. -/
def Registers.get_hl (r : Registers) : Nat := r.h * 256 + r.l

/-- The states the CPU can be in (`enum CpuState`). -/
inductive CpuState where
  | Halted
  | Running
deriving DecidableEq, Repr

/-- The Sharp SM83 CPU (`struct Cpu` in `cpu.rs`).  `immCount` is ghost
instrumentation counting the `imm_byte` calls of the current step; it
influences nothing. -/
structure Cpu where
  reg : Registers
  ime : Bool
  state : CpuState
  cycles : Nat
  immCount : Nat

/-- Embedding of `Cpu::imm_byte`: read the byte at PC, count one machine cycle and
advance PC.  Note that the source does not call `bus.tick()` here. -/
def Cpu.imm_byte (c : Cpu) (b : Bus) : Nat × Cpu × Bus :=
  let value := b.read_byte c.reg.pc
  (value,
    { c with
      cycles := c.cycles + 1
      immCount := c.immCount + 1
      reg := { c.reg with pc := wadd16 c.reg.pc 1 } },
    b)

/-- Embedding of `Cpu::internal_cycle`: count one machine cycle and tick the bus. -/
def Cpu.internal_cycle (c : Cpu) (b : Bus) : Cpu × Bus :=
  ({ c with cycles := c.cycles + 1 }, b.tick)

/-- The first interrupt index serviced by the `for i in 0..5` loop of
`handle_interrupts` (the loop breaks after the first hit). -/
def interruptIndex (ie ifl : Nat) : Option Nat :=
  (List.range 5).find? fun i => ie.testBit i && ifl.testBit i

/-- Embedding of `Cpu::handle_interrupts`: wake from HALT on any pending
`ie_flag & if_flag` bits; when IME is set, service the lowest pending
index: clear it in IF, clear IME, two internal cycles, push PC high
then low (plain bus writes), set PC to `0x40 + 8*i`, one more internal
cycle. -/
def Cpu.handle_interrupts (c : Cpu) (b : Bus) : Cpu × Bus :=
  let interrupts := Nat.land b.ie_flag b.if_flag
  let c := if interrupts ≠ 0 then { c with state := .Running } else c
  if c.ime = false then (c, b)
  else if interrupts ≠ 0 then
    match interruptIndex b.ie_flag b.if_flag with
    | none => (c, b)
    | some i =>
      let b := { b with if_flag := Nat.land b.if_flag (0xFF ^^^ (1 <<< i)) }
      let c := { c with ime := false }
      let s1 := c.internal_cycle b
      let s2 := s1.1.internal_cycle s1.2
      let c := s2.1
      let b := s2.2
      let lower := c.reg.pc % 256
      let upper := c.reg.pc / 256 % 256
      let c := { c with reg := { c.reg with sp := wsub16 c.reg.sp 1 } }
      let b := b.write_byte c.reg.sp upper
      let c := { c with reg := { c.reg with sp := wsub16 c.reg.sp 1 } }
      let b := b.write_byte c.reg.sp lower
      let c := { c with reg := { c.reg with pc := 0x40 + 0x08 * i } }
      c.internal_cycle b
  else (c, b)

/-- Modelled from the spec: `cpu/decode.rs` and `cpu/instructions.rs`
are not among the sources.  Only the opcodes exercised by the scenarios
of spec §8 are given semantics — `INC A` (0x3C), `ADD A, d8` (0xC6) and
`LD A, (HL)` (0x7E, whose memory access is paired with one counted
machine cycle and one bus tick per §4.4) — with the §3 flag layout
Z/N/H/C at bits 7..4.  Every other opcode is treated as `NOP`. -/
def Cpu.decode_and_execute (c : Cpu) (b : Bus) (opcode : Nat) : Cpu × Bus :=
  if opcode = 0x3C then
    let r := wadd8 c.reg.a 1
    let z := if r = 0 then 0x80 else 0
    let hc := if Nat.land c.reg.a 0x0F = 0x0F then 0x20 else 0
    ({ c with reg := { c.reg with a := r, f := z + hc + Nat.land c.reg.f 0x10 } }, b)
  else if opcode = 0xC6 then
    let s := c.imm_byte b
    let v := s.1
    let c := s.2.1
    let b := s.2.2
    let sum := c.reg.a % 256 + v % 256
    let z := if sum % 256 = 0 then 0x80 else 0
    let hc := if 0x0F < Nat.land c.reg.a 0x0F + Nat.land v 0x0F then 0x20 else 0
    let cy := if 0xFF < sum then 0x10 else 0
    ({ c with reg := { c.reg with a := sum % 256, f := z + hc + cy } }, b)
  else if opcode = 0x7E then
    let v := b.read_byte c.reg.get_hl
    let b := b.tick
    ({ c with cycles := c.cycles + 1, reg := { c.reg with a := v % 256 } }, b)
  else (c, b)

/-- Embedding of `Cpu::execute_next`: reset the per-step counters, handle pending
interrupts, then either burn one internal cycle (HALT) or fetch,
decode and execute; the machine-cycle count of the step is the resulting
`cycles` field. -/
def Cpu.execute_next (c : Cpu) (b : Bus) : Cpu × Bus :=
  let c := { c with cycles := 0, immCount := 0 }
  let s := c.handle_interrupts b
  if s.1.state = CpuState.Halted then s.1.internal_cycle s.2
  else
    let f := s.1.imm_byte s.2
    f.2.1.decode_and_execute f.2.2 f.1

/-- The emulator (`struct GameBoy` in `gameboy.rs`). -/
structure GameBoy where
  bus : Bus
  cpu : Cpu

/-- One CPU step of the frame loop: the machine-cycle count returned by
`execute_next` together with the updated emulator. -/
def GameBoy.step (gb : GameBoy) : Nat × GameBoy :=
  let s := gb.cpu.execute_next gb.bus
  (s.1.cycles, ⟨s.2, s.1⟩)

/-! Concrete states used by the witnesses and counterexamples below. -/

/-- An all-zero PPU (LCD disabled). -/
def ppu0 : Ppu where
  vram := fun _ => 0
  oam := fun _ => 0
  ly := 0
  lyc := 0
  lcdc := 0
  stat := 0
  scy := 0
  scx := 0
  bgp := 0
  obp0 := 0
  obp1 := 0
  wx := 0
  wy := 0
  window_line := 0
  current_mode := .OamSearch
  total_cycles := 0
  back_framebuffer := fun _ => 0
  front_framebuffer := fun _ => 0

/-- An all-zero register file. -/
def reg0 : Registers where
  a := 0
  f := 0
  b := 0
  c := 0
  d := 0
  e := 0
  h := 0
  l := 0
  sp := 0
  pc := 0

/-- The bus of interrupt-dispatch scenario D of the spec:
IE = 0x01, IF = 0x01, everything else zeroed. -/
def busD : Bus where
  rom := fun _ => 0
  wram := fun _ => 0
  hram := fun _ => 0
  ie_flag := 0x01
  if_flag := 0x01
  ppu := ppu0
  tickCount := 0

/-- The CPU of interrupt-dispatch scenario D of the spec:
IME = 1, SP = 0xFFFE, PC = 0x0150, running. -/
def cpuD : Cpu where
  reg := { reg0 with sp := 0xFFFE, pc := 0x0150 }
  ime := true
  state := .Running
  cycles := 0
  immCount := 0

/-- A running CPU with IME clear about to fetch the NOP at 0x0200. -/
def cpuE : Cpu where
  reg := { reg0 with pc := 0x0200 }
  ime := false
  state := .Running
  cycles := 0
  immCount := 0

/-- A bus with no pending or enabled interrupts. -/
def busE : Bus where
  rom := fun _ => 0
  wram := fun _ => 0
  hram := fun _ => 0
  ie_flag := 0
  if_flag := 0
  ppu := ppu0
  tickCount := 0

/-- A halted CPU with IME clear. -/
def cpuH : Cpu := { cpuE with state := .Halted }

/-- A halted emulator whose bus enables no interrupt: every step burns
exactly one machine cycle. -/
def gbH : GameBoy where
  bus := busE
  cpu := cpuH

/-- A CPU/bus pair where IE and IF overlap only in bit 5, which lies
outside the 0x1F interrupt mask. -/
def bus4 : Bus := { busE with ie_flag := 0x20, if_flag := 0x20 }

/-- A PPU with two sprites visible on line 0: OAM index 0 has OAM
X = 7 (adjusted X wraps to 255) drawing colour index 1, OAM index 1
has OAM X = 9 (adjusted X = 1) drawing colour index 2; OBP0 = 0xE4
maps index `i` to palette shade `i`.  Their pixels overlap on screen
columns 1..6. -/
def ppu5 : Ppu := { ppu0 with
  lcdc := 0x02
  obp0 := 0xE4
  oam := fun i =>
    if i = 0 then 16 else if i = 1 then 7 else if i = 2 then 0 else if i = 3 then 0
    else if i = 4 then 16 else if i = 5 then 9 else if i = 6 then 1 else if i = 7 then 0
    else 0
  vram := fun i => if i = 0 then 0xFF else if i = 17 then 0xFF else 0 }

/-- A PPU on scanline 143 with a single sprite at OAM X = 168, whose
adjusted X is 160: the `actual_x <= 160` draw bound in the source accepts
its leftmost pixel. -/
def ppu6 : Ppu := { ppu0 with
  ly := 143
  lcdc := 0x02
  obp0 := 0xE4
  oam := fun i => if i = 0 then 159 else if i = 1 then 168 else 0
  vram := fun i => if i = 0 then 0x80 else 0 }

/-- A PPU one tick before the LY 153 → 0 rollover, with distinguishable
front and back framebuffers. -/
def ppu7 : Ppu := { ppu0 with
  lcdc := 0x80
  current_mode := .VBlank
  total_cycles := 452
  ly := 153
  back_framebuffer := fun _ => 9
  front_framebuffer := fun _ => 7 }


/-- State `q` differs from `p` at most in the back framebuffer. -/
def Ppu.backOnly (p q : Ppu) : Prop :=
  q = { p with back_framebuffer := q.back_framebuffer }

/-- State `q` differs from `p` at most in the back framebuffer and the
window line counter. -/
def Ppu.bwOnly (p q : Ppu) : Prop :=
  q = { p with back_framebuffer := q.back_framebuffer, window_line := q.window_line }


/-- The four bytes of the pixel at row `y`, column `c` of a
framebuffer. -/
def framebufferPixel (buf : Nat → Nat) (y c : Nat) : Nat × Nat × Nat × Nat :=
  (buf (y * 160 * 4 + c * 4), buf (y * 160 * 4 + c * 4 + 1),
    buf (y * 160 * 4 + c * 4 + 2), buf (y * 160 * 4 + c * 4 + 3))

/-- The big-endian RGBA bytes of a colour, as written by
`draw_pixel`. -/
def colourBytes (colour : Nat) : Nat × Nat × Nat × Nat :=
  (colour / 2 ^ 24 % 256, colour / 2 ^ 16 % 256, colour / 2 ^ 8 % 256, colour % 256)

/-- Colour index of sprite `s` at column offset `x`, with the bitplane
bytes fetched from VRAM exactly as in `drawSprite`. -/
def Ppu.spriteColourIndex (p : Ppu) (s : Sprite) (x : Nat) : Nat :=
  let address := s.tile_number * 16 + p.spriteTileY s * 2
  spriteColourIndexBits s.flags (p.vram address) (p.vram (address + 1)) x

/-- The RGBA colour sprite `s` draws at column offset `x`. -/
def Ppu.spriteColour (p : Ppu) (s : Sprite) (x : Nat) : Nat :=
  p.spritePaletteColour s.flags (p.spriteColourIndex s x)

/-- The column offset (0..7) at which sprite `s` covers screen column
`c`: the wrapping difference `c - s.x (mod 256)`. -/
def spriteHitCol (s : Sprite) (c : Nat) : Nat := wsub8 c s.x

/-- Sprite `s` puts an opaque pixel on screen column `c`: some column
offset below 8 lands on `c`, the draw bound `c ≤ 160` holds, and the
colour index there is nonzero.  For a sprite whose background-priority
flag is clear this is exactly the condition under which the render
loop writes the pixel. -/
def Ppu.spriteSolidAt (p : Ppu) (s : Sprite) (c : Nat) : Bool :=
  spriteHitCol s c < 8 && c ≤ 160 && p.spriteColourIndex s (spriteHitCol s c) != 0

/-- The strict draw-priority order realized by the comparator: `a` is
drawn over `b` (lower adjusted X wins, lower enumeration index breaks
ties). -/
def spriteBelow (a b : Nat × Sprite) : Prop :=
  a.2.x < b.2.x ∨ (a.2.x = b.2.x ∧ a.1 < b.1)

instance (a b : Nat × Sprite) : Decidable (spriteBelow a b) := by
  unfold spriteBelow
  infer_instance

/-- A PPU with one sprite at OAM X = 16 (adjusted X = 8), opaque on
line 0 at screen column 8. -/
def ppu5w : Ppu := { ppu0 with
  lcdc := 0x02
  obp0 := 0xE4
  oam := fun i => if i = 0 then 16 else if i = 1 then 16 else 0
  vram := fun i => if i = 0 then 0xFF else 0 }


/-- The `cycles` count never decreases inside `decode_and_execute`. -/
theorem Cpu.decode_cycles_le (c : Cpu) (b : Bus) (op : Nat) :
    c.cycles ≤ (c.decode_and_execute b op).1.cycles := by
  unfold Cpu.decode_and_execute
  split_ifs <;> simp [Cpu.imm_byte]

/-- Every step of `execute_next` costs at least one machine cycle: one
internal cycle when halted, at least the opcode fetch otherwise. -/
theorem Cpu.execute_next_pos (c : Cpu) (b : Bus) : 1 ≤ (c.execute_next b).1.cycles := by
  unfold Cpu.execute_next
  dsimp only
  split
  · simp [Cpu.internal_cycle]
  · set s := Cpu.handle_interrupts { c with cycles := 0, immCount := 0 } b with hs
    have h := Cpu.decode_cycles_le (s.1.imm_byte s.2).2.1 (s.1.imm_byte s.2).2.2
      (s.1.imm_byte s.2).1
    simp only [Cpu.imm_byte] at h ⊢
    omega

/-- Lower bound for one step of the frame loop. -/
theorem GameBoy.step_pos (gb : GameBoy) : 1 ≤ gb.step.1 :=
  Cpu.execute_next_pos gb.cpu gb.bus

/-- The loop of `GameBoy::execute_frame`, carried out on the
accumulated machine-cycle count: `while cycles <= CYCLES_PER_FRAME`
with `CYCLES_PER_FRAME = 70224`.  Returns the final accumulated
count (the loop-local `cycles` variable at exit). -/
def GameBoy.frameLoop (cycles : Nat) (gb : GameBoy) : Nat :=
  if cycles ≤ 70224 then GameBoy.frameLoop (cycles + gb.step.1) gb.step.2
  else cycles
termination_by 70225 - cycles
decreasing_by
  have := GameBoy.step_pos gb
  omega

/-- Embedding of `GameBoy::execute_frame`, observed through the accumulated
machine-cycle count of its loop. -/
def GameBoy.execute_frame (gb : GameBoy) : Nat := GameBoy.frameLoop 0 gb

/-! Claim C1. -/

/-- C1, counterexample: in scenario D of the spec (IME = 1, IE = IF =
0x01, SP = 0xFFFE, PC = 0x0150), the interrupt dispatch of
`handle_interrupts` adds 3 machine cycles to the cycle counter of the step
(and produces 3 bus ticks), not the claimed 5: the two stack pushes go
through `bus.write_byte` without an accompanying `internal_cycle`. -/
theorem c1_dispatch_five_cycles_counterexample :
    (cpuD.handle_interrupts busD).1.cycles = 3 ∧
      (cpuD.handle_interrupts busD).2.tickCount = 3 ∧
      (cpuD.handle_interrupts busD).1.cycles ≠ 5 := by decide

/-- C1, amended: in scenario D the dispatch clears IF bit 0, clears
IME, pushes PC high then PC low leaving SP = 0xFFFC,
memory[0xFFFD] = 0x01 and memory[0xFFFC] = 0x50, and sets PC to 0x0040 —
but it consumes 3 machine cycles (2 internal + 1 jump), each of which
ticks the bus; the two pushes are plain bus writes that neither tick
the bus nor count a machine cycle. -/
theorem c1_dispatch_amended :
    (cpuD.handle_interrupts busD).2.if_flag = 0 ∧
      (cpuD.handle_interrupts busD).1.ime = false ∧
      (cpuD.handle_interrupts busD).1.reg.sp = 0xFFFC ∧
      (cpuD.handle_interrupts busD).2.read_byte 0xFFFD = 0x01 ∧
      (cpuD.handle_interrupts busD).2.read_byte 0xFFFC = 0x50 ∧
      (cpuD.handle_interrupts busD).1.reg.pc = 0x0040 ∧
      (cpuD.handle_interrupts busD).1.cycles = 3 ∧
      (cpuD.handle_interrupts busD).2.tickCount = 3 := by decide

/-! Claim C4. -/

/-- C4, counterexample: with IE = IF = 0x20 the pending mask of the claim,
`IE & IF & 0x1F` is zero, so by the claim the halted CPU must stay
halted; but `handle_interrupts` computes `IE & IF` without the 0x1F
mask, finds it nonzero, and wakes the CPU. -/
theorem c4_pending_mask_counterexample :
    Nat.land (Nat.land bus4.ie_flag bus4.if_flag) 0x1F = 0 ∧
      cpuH.state = CpuState.Halted ∧
      (cpuH.handle_interrupts bus4).1.state = CpuState.Running := by decide

/-- C4, amended: at the top of every CPU step pending interrupts are
computed as `IE & IF` (without the 0x1F mask); whenever that value is
nonzero the CPU becomes Running even when IME is clear, and when IME
is clear nothing else happens: the entire result of the
interrupt-handling phase is the state change alone (no IF bit cleared,
PC, SP, cycles and the whole bus unchanged). -/
theorem c4_halt_wake_amended (c : Cpu) (b : Bus) :
    (Nat.land b.ie_flag b.if_flag ≠ 0 →
      (c.handle_interrupts b).1.state = CpuState.Running) ∧
    (c.ime = false →
      c.handle_interrupts b =
        ({ c with state :=
            if Nat.land b.ie_flag b.if_flag ≠ 0 then CpuState.Running else c.state }, b)) := by
  constructor
  · intro h
    unfold Cpu.handle_interrupts
    dsimp only
    rw [if_pos h]
    split_ifs with h1
    · rfl
    · rcases hfind : interruptIndex b.ie_flag b.if_flag with _ | i <;>
        simp [hfind, Cpu.internal_cycle]
  · intro h
    cases c with
    | mk rg im st cy ic =>
      dsimp only at h
      subst h
      unfold Cpu.handle_interrupts
      dsimp only
      split_ifs with h1 <;> simp_all

/-- C4, witness for the amended claim at a concrete input: with
IE = IF = 0x20 and IME clear the halted CPU wakes to Running and the
interrupt-handling phase changes nothing else. -/
theorem c4_halt_wake_amended_witness :
    (Nat.land bus4.ie_flag bus4.if_flag ≠ 0 ∧
      (cpuH.handle_interrupts bus4).1.state = CpuState.Running) ∧
    (cpuH.ime = false ∧
      cpuH.handle_interrupts bus4 =
        ({ cpuH with state :=
            if Nat.land bus4.ie_flag bus4.if_flag ≠ 0 then CpuState.Running
            else cpuH.state }, bus4)) :=
  ⟨⟨by decide, (c4_halt_wake_amended cpuH bus4).1 (by decide)⟩,
   ⟨by decide, (c4_halt_wake_amended cpuH bus4).2 (by decide)⟩⟩

/-! Claim C6. -/

/-- C6: the code draws a sprite pixel at `actual_x = 160`, one column
past the 160-pixel scanline.  On scanline 143 the write lands at byte
offset 160*144*4 = 92160, the first byte past the end of the
160x144x4 back framebuffer (an out-of-bounds index of
`back_framebuffer` in the Rust source). -/
theorem c6_sprite_write_at_column_160 :
    ppu6.render_sprites.back_framebuffer (160 * 144 * 4) = 0xD3 ∧
      ppu6.back_framebuffer (160 * 144 * 4) = 0 ∧
      160 * 144 * 4 = 143 * 160 * 4 + 160 * 4 := by decide

/-! Claim C8. -/

/-- C8: while the LCD-enable bit (LCDC bit 7) is clear, a PPU tick is
the identity: mode, LY, the mode cycle counter — indeed the whole PPU
state including both framebuffers — and the IF byte are unchanged. -/
theorem c8_lcd_disabled_tick_identity (p : Ppu) (ifr : Nat)
    (h : p.lcdc.testBit 7 = false) : p.tick ifr = (p, ifr) := by
  unfold Ppu.tick
  rw [if_pos]
  simp [h]

/-- C8, witness: the disabled all-zero PPU is unchanged by a tick. -/
theorem c8_lcd_disabled_tick_identity_witness :
    ppu0.lcdc.testBit 7 = false ∧ ppu0.tick 0 = (ppu0, 0) :=
  ⟨by decide, c8_lcd_disabled_tick_identity ppu0 0 (by decide)⟩

/-! Claim C2: cycle/tick accounting lemmas. -/

/-- Ticking the bus increments the ghost tick counter. -/
@[simp] theorem Bus.tick_tickCount (b : Bus) : b.tick.tickCount = b.tickCount + 1 := rfl

/-- A bus write never ticks: the tick counter is untouched. -/
@[simp] theorem Bus.write_byte_tickCount (b : Bus) (a v : Nat) :
    (b.write_byte a v).tickCount = b.tickCount := by
  unfold Bus.write_byte
  split_ifs <;> rfl

/-- Cycle/tick/fetch deltas of `handle_interrupts`: the dispatch adds
the same number k ≤ 3 of machine cycles and bus ticks (3 when an
interrupt is serviced, 0 otherwise) and performs no `imm_byte`. -/
theorem Cpu.handle_interrupts_delta (c : Cpu) (b : Bus) :
    ∃ k, k ≤ 3 ∧ (c.handle_interrupts b).1.cycles = c.cycles + k ∧
      (c.handle_interrupts b).2.tickCount = b.tickCount + k ∧
      (c.handle_interrupts b).1.immCount = c.immCount ∧
      (c.handle_interrupts b).1.state =
        (if Nat.land b.ie_flag b.if_flag ≠ 0 then CpuState.Running else c.state) := by
  unfold Cpu.handle_interrupts
  dsimp only
  split_ifs with h1 h2 h2
  · exact ⟨0, by simp [h1]⟩
  · rcases hfind : interruptIndex b.ie_flag b.if_flag with _ | i
    · exact ⟨0, by simp [hfind, h1]⟩
    · refine ⟨3, by omega, ?_, ?_, ?_, ?_⟩ <;>
        · simp [hfind, Cpu.internal_cycle, h1]
          try omega
  · exact ⟨0, by simp [h1]⟩
  · exact ⟨0, by simp [h1]⟩

/-- Cycle/tick/fetch deltas of the modelled `decode_and_execute`: each
opcode adds `kt` ticks and `ki` immediate fetches, and exactly
`kt + ki ≤ 1` machine cycles. -/
theorem Cpu.decode_delta (c : Cpu) (b : Bus) (op : Nat) :
    ∃ kc kt ki, kc = kt + ki ∧ kc ≤ 1 ∧
      (c.decode_and_execute b op).1.cycles = c.cycles + kc ∧
      (c.decode_and_execute b op).2.tickCount = b.tickCount + kt ∧
      (c.decode_and_execute b op).1.immCount = c.immCount + ki := by
  by_cases h1 : op = 0x3C
  · refine ⟨0, 0, 0, rfl, by omega, ?_, ?_, ?_⟩ <;> simp [Cpu.decode_and_execute, h1]
  · by_cases h2 : op = 0xC6
    · refine ⟨1, 0, 1, rfl, by omega, ?_, ?_, ?_⟩ <;>
        simp [Cpu.decode_and_execute, h1, h2, Cpu.imm_byte]
    · by_cases h3 : op = 0x7E
      · refine ⟨1, 1, 0, rfl, by omega, ?_, ?_, ?_⟩ <;>
          simp [Cpu.decode_and_execute, h1, h2, h3]
      · refine ⟨0, 0, 0, rfl, by omega, ?_, ?_, ?_⟩ <;>
          simp [Cpu.decode_and_execute, h1, h2, h3]

/-- C2, counterexample: a step that fetches and executes the NOP at
0x0200 returns a machine-cycle count of 1 while the bus was ticked 0
times — `imm_byte` counts a cycle but never calls `bus.tick()`
(`read_byte` of the spec-modelled bus is a pure read), refuting both
the count = ticks equality and the sub-claim that every `imm_byte`
call ticks the bus exactly once. -/
theorem c2_fetch_without_tick_counterexample :
    (cpuE.execute_next busE).1.cycles = 1 ∧
      (cpuE.execute_next busE).2.tickCount = 0 ∧ busE.tickCount = 0 ∧
      (1 : Nat) ≠ 0 := by decide

/-- C2, amended: for every CPU step, the machine-cycle count returned
by `execute_next` equals the number of `bus.tick()` invocations during
the step plus the number of `imm_byte` calls (opcode or immediate
fetches): `imm_byte` counts one machine cycle and advances PC without
ticking the bus, while internal cycles and the explicit paired accesses
of the modelled instructions contribute one tick per counted cycle. -/
theorem c2_cycle_accounting_amended (c : Cpu) (b : Bus) :
    (c.execute_next b).1.cycles =
      ((c.execute_next b).2.tickCount - b.tickCount) + (c.execute_next b).1.immCount := by
  unfold Cpu.execute_next
  dsimp only
  obtain ⟨k, hk, h1, h2, h3, -⟩ :=
    Cpu.handle_interrupts_delta { c with cycles := 0, immCount := 0 } b
  set s := Cpu.handle_interrupts { c with cycles := 0, immCount := 0 } b with hs
  split
  · simp only [Cpu.internal_cycle, Bus.tick_tickCount]
    dsimp only at h1 h2 h3 ⊢
    omega
  · obtain ⟨kc, kt, ki, hsum, hkc, d1, d2, d3⟩ :=
      Cpu.decode_delta (s.1.imm_byte s.2).2.1 (s.1.imm_byte s.2).2.2 (s.1.imm_byte s.2).1
    simp only [Cpu.imm_byte] at d1 d2 d3 ⊢
    dsimp only at h1 h2 h3 d1 d2 d3 ⊢
    omega

/-! Claims C9 and C3: step bounds and the frame loop. -/

/-- Upper bound on one step of the embedded CPU: at most 3 dispatch
cycles plus the fetch plus at most 1 instruction cycle. -/
theorem Cpu.execute_next_le (c : Cpu) (b : Bus) : (c.execute_next b).1.cycles ≤ 5 := by
  unfold Cpu.execute_next
  dsimp only
  obtain ⟨k, hk, h1, -, -, -⟩ :=
    Cpu.handle_interrupts_delta { c with cycles := 0, immCount := 0 } b
  set s := Cpu.handle_interrupts { c with cycles := 0, immCount := 0 } b with hs
  split
  · simp only [Cpu.internal_cycle]
    dsimp only at h1 ⊢
    omega
  · obtain ⟨kc, kt, ki, hsum, hkc, d1, -, -⟩ :=
      Cpu.decode_delta (s.1.imm_byte s.2).2.1 (s.1.imm_byte s.2).2.2 (s.1.imm_byte s.2).1
    simp only [Cpu.imm_byte] at d1 ⊢
    dsimp only at h1 d1 ⊢
    omega

/-- The frame loop always exits with a count in (70224, 70229]. -/
theorem frameLoop_bounds (n : Nat) : ∀ cycles gb, 70225 - cycles ≤ n → cycles ≤ 70224 →
    70224 < GameBoy.frameLoop cycles gb ∧ GameBoy.frameLoop cycles gb ≤ 70229 := by
  induction n with
  | zero => intro cycles gb hn hc; omega
  | succ n ih =>
    intro cycles gb hn hc
    rw [GameBoy.frameLoop, if_pos hc]
    have hpos := gb.step_pos
    have hle : gb.step.1 ≤ 5 := Cpu.execute_next_le gb.cpu gb.bus
    by_cases h2 : cycles + gb.step.1 ≤ 70224
    · exact ih _ _ (by omega) h2
    · rw [GameBoy.frameLoop, if_neg h2]
      omega

/-- With no interrupt pending the interrupt-handling phase is a
no-op. -/
theorem Cpu.handle_interrupts_no_pending (c : Cpu) (b : Bus)
    (h : Nat.land b.ie_flag b.if_flag = 0) : c.handle_interrupts b = (c, b) := by
  unfold Cpu.handle_interrupts
  dsimp only
  simp [h]

/-- A halted emulator whose IE byte is zero burns exactly one machine
cycle per step and stays halted with IE = 0. -/
theorem GameBoy.halted_step (gb : GameBoy) (h1 : gb.cpu.state = CpuState.Halted)
    (h2 : gb.bus.ie_flag = 0) :
    gb.step.1 = 1 ∧ gb.step.2.cpu.state = CpuState.Halted ∧
      gb.step.2.bus.ie_flag = 0 := by
  have hz : Nat.land gb.bus.ie_flag gb.bus.if_flag = 0 := by
    rw [h2]; exact Nat.zero_and _
  unfold GameBoy.step Cpu.execute_next
  dsimp only
  rw [Cpu.handle_interrupts_no_pending _ _ hz]
  rw [if_pos (by dsimp only; exact h1)]
  refine ⟨rfl, ?_, ?_⟩ <;> simp [Cpu.internal_cycle, Bus.tick, h1, h2]

/-- The frame loop of the halted, interrupt-free emulator accumulates
exactly one cycle per step and exits at exactly 70225. -/
theorem frameLoop_halted (n : Nat) : ∀ cycles gb, 70225 - cycles ≤ n →
    gb.cpu.state = CpuState.Halted → gb.bus.ie_flag = 0 → cycles ≤ 70224 →
    GameBoy.frameLoop cycles gb = 70225 := by
  induction n with
  | zero => intro cycles gb hn _ _ hc; omega
  | succ n ih =>
    intro cycles gb hn h1 h2 hc
    obtain ⟨hs1, hs2, hs3⟩ := GameBoy.halted_step gb h1 h2
    rw [GameBoy.frameLoop, if_pos hc]
    by_cases h4 : cycles + gb.step.1 ≤ 70224
    · exact ih _ _ (by omega) hs2 hs3 h4
    · rw [GameBoy.frameLoop, if_neg h4]
      omega

/-- C9: every step of `execute_next` returns at least one machine
cycle (one internal cycle when halted, at least the opcode fetch
otherwise), and `execute_frame` — whose loop accumulates these returns
— terminates for every input state, exiting with a count above the
frame constant.  (The totality of `GameBoy.frameLoop` as a Lean
function rests on exactly this lower bound.) -/
theorem c9_step_positive_frame_terminates (gb : GameBoy) :
    1 ≤ gb.step.1 ∧ 70224 < gb.execute_frame :=
  ⟨gb.step_pos, (frameLoop_bounds 70225 0 gb (by omega) (by omega)).1⟩

/-- C3, counterexample: starting `execute_frame` on a halted emulator
with no enabled interrupt, every step adds exactly one cycle, so the
accumulated count reaches exactly 70224 — yet the loop does not stop
there: `while cycles <= CYCLES_PER_FRAME` runs one further step, and
the loop as a whole returns 70225.  The claim, which states stopping as
soon as the cumulative count is at least 70224, demands 70224. -/
theorem c3_stop_condition_counterexample :
    gbH.cpu.state = CpuState.Halted ∧ gbH.bus.ie_flag = 0 ∧
      GameBoy.frameLoop 70224 gbH = 70225 ∧
      gbH.execute_frame = 70225 ∧ (70225 : Nat) ≠ 70224 :=
  ⟨rfl, rfl, frameLoop_halted 1 70224 gbH (by omega) rfl rfl (by omega),
    frameLoop_halted 70225 0 gbH (by omega) rfl rfl (by omega), by omega⟩

/-- C3, amended: `execute_frame` repeatedly calls the CPU step while
the accumulated machine-cycle count is ≤ 70224, so it stops at the
first count strictly greater than 70224; afterwards the count lies in
the half-open interval (70224, 70224 + max-instruction-cycles], which
for the embedded instruction set (max step 5) is (70224, 70229]. -/
theorem c3_frame_cycle_bounds_amended (gb : GameBoy) :
    70224 < gb.execute_frame ∧ gb.execute_frame ≤ 70224 + 5 :=
  frameLoop_bounds 70225 0 gb (by omega) (by omega)

/-! Framebuffer locality: rendering touches only the back framebuffer
(and, for the background pass, the window line counter). -/

theorem Ppu.backOnly_refl (p : Ppu) : p.backOnly p := rfl

theorem Ppu.backOnly_trans {p q r : Ppu} (h1 : p.backOnly q) (h2 : q.backOnly r) :
    p.backOnly r := by
  unfold Ppu.backOnly at *
  exact h2.trans (by rw [h1])

theorem Ppu.backOnly_bwOnly {p q : Ppu} (h : p.backOnly q) : p.bwOnly q := by
  unfold Ppu.backOnly at h
  unfold Ppu.bwOnly
  rw [h]

theorem Ppu.bwOnly_refl (p : Ppu) : p.bwOnly p := rfl

theorem Ppu.bwOnly_trans {p q r : Ppu} (h1 : p.bwOnly q) (h2 : q.bwOnly r) :
    p.bwOnly r := by
  unfold Ppu.bwOnly at *
  exact h2.trans (by rw [h1])

theorem Ppu.bwOnly_front {p q : Ppu} (h : p.bwOnly q) :
    q.front_framebuffer = p.front_framebuffer := by rw [h]

theorem Ppu.draw_pixel_backOnly (p : Ppu) (x y c : Nat) :
    p.backOnly (p.draw_pixel x y c) := rfl

theorem Ppu.drawSpriteCol_backOnly (p : Ppu) (s : Sprite) (lsb msb x : Nat) :
    p.backOnly (p.drawSpriteCol s lsb msb x) := by
  unfold Ppu.drawSpriteCol
  dsimp only
  split_ifs <;> rfl

theorem foldl_cols_backOnly (s : Sprite) (lsb msb : Nat) :
    ∀ (l : List Nat) (q : Ppu),
      q.backOnly (l.foldl (fun r x => r.drawSpriteCol s lsb msb x) q)
  | [], q => Ppu.backOnly_refl q
  | x :: l, q =>
    Ppu.backOnly_trans (Ppu.drawSpriteCol_backOnly q s lsb msb x)
      (foldl_cols_backOnly s lsb msb l _)

theorem Ppu.drawSprite_backOnly (q : Ppu) (s : Sprite) : q.backOnly (q.drawSprite s) := by
  unfold Ppu.drawSprite
  exact foldl_cols_backOnly s _ _ (List.range 8) q

theorem foldl_sprites_backOnly :
    ∀ (l : List (Nat × Sprite)) (q : Ppu), q.backOnly (l.foldl Ppu.spriteStep q)
  | [], q => Ppu.backOnly_refl q
  | e :: l, q =>
    Ppu.backOnly_trans (Ppu.drawSprite_backOnly q e.2) (foldl_sprites_backOnly l _)

theorem Ppu.render_sprites_backOnly (p : Ppu) : p.backOnly p.render_sprites := by
  unfold Ppu.render_sprites
  split_ifs <;>
    first
      | exact Ppu.backOnly_refl p
      | exact foldl_sprites_backOnly _ p

theorem Ppu.bgDrawPixel_backOnly (p : Ppu) (x : Nat) :
    p.backOnly (p.bgDrawPixel x).1 := rfl

theorem foldl_bg_bwOnly :
    ∀ (l : List Nat) (acc : Ppu × Bool), acc.1.bwOnly (l.foldl Ppu.bgStep acc).1
  | [], _ => Ppu.bwOnly_refl _
  | x :: l, acc =>
    Ppu.bwOnly_trans (Ppu.backOnly_bwOnly (Ppu.bgDrawPixel_backOnly acc.1 x))
      (foldl_bg_bwOnly l _)

theorem Ppu.render_background_bwOnly (p : Ppu) : p.bwOnly p.render_background := by
  unfold Ppu.render_background
  by_cases h1 : p.lcdc.testBit 0
  · rw [if_neg (by simp [h1])]
    dsimp only
    refine Ppu.bwOnly_trans (q := if p.ly = 0 then { p with window_line := 0 } else p) ?_ ?_
    · split_ifs <;> rfl
    · exact Ppu.bwOnly_trans (foldl_bg_bwOnly (List.range 160) _) rfl
  · rw [if_pos (by simp [h1])]
    exact Ppu.bwOnly_refl p

theorem Ppu.render_scanline_bwOnly (p : Ppu) : p.bwOnly p.render_scanline :=
  Ppu.bwOnly_trans (Ppu.render_background_bwOnly p)
    (Ppu.backOnly_bwOnly (Ppu.render_sprites_backOnly _))

/-- A mode change never touches the front framebuffer. -/
theorem Ppu.change_mode_front (p : Ppu) (ifr : Nat) :
    ∀ m, (p.change_mode m ifr).1.front_framebuffer = p.front_framebuffer
  | .HBlank =>
    Ppu.bwOnly_front (p := { p with current_mode := .HBlank })
      (Ppu.render_scanline_bwOnly _)
  | .VBlank => rfl
  | .OamSearch => rfl
  | .Drawing => rfl

/-- The LYC compare touches only STAT. -/
theorem Ppu.compare_lyc_fields (p : Ppu) (ifr : Nat) :
    (p.compare_lyc ifr).1.front_framebuffer = p.front_framebuffer ∧
      (p.compare_lyc ifr).1.back_framebuffer = p.back_framebuffer ∧
      (p.compare_lyc ifr).1.ly = p.ly := by
  unfold Ppu.compare_lyc
  split_ifs <;> exact ⟨rfl, rfl, rfl⟩

@[simp] theorem Ppu.compare_lyc_front (p : Ppu) (ifr : Nat) :
    (p.compare_lyc ifr).1.front_framebuffer = p.front_framebuffer :=
  (Ppu.compare_lyc_fields p ifr).1

@[simp] theorem Ppu.compare_lyc_back (p : Ppu) (ifr : Nat) :
    (p.compare_lyc ifr).1.back_framebuffer = p.back_framebuffer :=
  (Ppu.compare_lyc_fields p ifr).2.1

@[simp] theorem Ppu.compare_lyc_ly (p : Ppu) (ifr : Nat) :
    (p.compare_lyc ifr).1.ly = p.ly :=
  (Ppu.compare_lyc_fields p ifr).2.2

@[simp] theorem Ppu.change_mode_front_simp (p : Ppu) (ifr : Nat) (m : PpuModes) :
    (p.change_mode m ifr).1.front_framebuffer = p.front_framebuffer :=
  Ppu.change_mode_front p ifr m

/-- Entering OAM search changes only the mode tag. -/
@[simp] theorem Ppu.change_mode_oam (p : Ppu) (ifr : Nat) :
    (p.change_mode .OamSearch ifr).1 = { p with current_mode := .OamSearch } := rfl

/-! Claim C7. -/

/-- C7: a PPU tick overwrites the front framebuffer exactly at the
LY 153 → 0 rollover with the LCD enabled (the tick in VBlank whose
line counter reaches 154, which the code resets to 0); there it copies
the back framebuffer byte-for-byte while leaving the back framebuffer
itself untouched and setting LY to 0, and every other tick leaves the
front framebuffer unchanged — so the frame is presented exactly once
per frame, at the rollover. -/
theorem c7_front_presented_once_per_frame (p : Ppu) (ifr : Nat) :
    ((p.tick ifr).1.front_framebuffer =
      if p.lcdc.testBit 7 = true ∧ p.current_mode = PpuModes.VBlank ∧
          456 ≤ p.total_cycles + 4 ∧ p.ly + 1 = 154
        then p.back_framebuffer else p.front_framebuffer) ∧
    (p.lcdc.testBit 7 = true ∧ p.current_mode = PpuModes.VBlank ∧
        456 ≤ p.total_cycles + 4 ∧ p.ly + 1 = 154 →
      (p.tick ifr).1.ly = 0 ∧
        (p.tick ifr).1.back_framebuffer = p.back_framebuffer) := by
  unfold Ppu.tick
  by_cases hlcd : p.lcdc.testBit 7
  case neg =>
    rw [if_pos (by simp [hlcd])]
    refine ⟨?_, fun h => absurd h.1 (by simp [hlcd])⟩
    rw [if_neg (by simp [hlcd])]
  case pos =>
    rw [if_neg (by simp [hlcd])]
    dsimp only
    cases hm : p.current_mode
    case HBlank =>
      have hcond : ¬(p.lcdc.testBit 7 = true ∧ PpuModes.HBlank = PpuModes.VBlank ∧
          456 ≤ p.total_cycles + 4 ∧ p.ly + 1 = 154) := by simp
      refine ⟨?_, fun h => absurd h hcond⟩
      rw [if_neg hcond]
      dsimp only
      split_ifs <;> simp
    case VBlank =>
      by_cases h1 : 456 ≤ p.total_cycles + 4
      · by_cases h2 : p.ly + 1 = 154
        · have hcond : p.lcdc.testBit 7 = true ∧ PpuModes.VBlank = PpuModes.VBlank ∧
              456 ≤ p.total_cycles + 4 ∧ p.ly + 1 = 154 := ⟨hlcd, rfl, h1, h2⟩
          rw [if_pos hcond]
          dsimp only
          rw [if_pos h1, if_pos h2]
          refine ⟨by simp, fun _ => ⟨by simp, by simp⟩⟩
        · have hcond : ¬(p.lcdc.testBit 7 = true ∧ PpuModes.VBlank = PpuModes.VBlank ∧
              456 ≤ p.total_cycles + 4 ∧ p.ly + 1 = 154) := by simp [h2]
          refine ⟨?_, fun h => absurd h hcond⟩
          rw [if_neg hcond]
          dsimp only
          rw [if_pos h1, if_neg h2]
          simp
      · have hcond : ¬(p.lcdc.testBit 7 = true ∧ PpuModes.VBlank = PpuModes.VBlank ∧
            456 ≤ p.total_cycles + 4 ∧ p.ly + 1 = 154) := by simp [h1]
        refine ⟨?_, fun h => absurd h hcond⟩
        rw [if_neg hcond]
        dsimp only
        rw [if_neg h1]
    case OamSearch =>
      have hcond : ¬(p.lcdc.testBit 7 = true ∧ PpuModes.OamSearch = PpuModes.VBlank ∧
          456 ≤ p.total_cycles + 4 ∧ p.ly + 1 = 154) := by simp
      refine ⟨?_, fun h => absurd h hcond⟩
      rw [if_neg hcond]
      dsimp only
      split_ifs <;> simp
    case Drawing =>
      have hcond : ¬(p.lcdc.testBit 7 = true ∧ PpuModes.Drawing = PpuModes.VBlank ∧
          456 ≤ p.total_cycles + 4 ∧ p.ly + 1 = 154) := by simp
      refine ⟨?_, fun h => absurd h hcond⟩
      rw [if_neg hcond]
      dsimp only
      split_ifs <;> simp

/-- C7, witness: at a PPU one tick before the rollover (VBlank,
LY = 153, 452 mode cycles, LCD on) the tick copies the back
framebuffer to the front framebuffer and resets LY to 0. -/
theorem c7_front_presented_once_per_frame_witness :
    (ppu7.tick 0).1.front_framebuffer = ppu7.back_framebuffer ∧
      (ppu7.tick 0).1.ly = 0 := by
  have h := c7_front_presented_once_per_frame ppu7 0
  have hcond : ppu7.lcdc.testBit 7 = true ∧ ppu7.current_mode = PpuModes.VBlank ∧
      456 ≤ ppu7.total_cycles + 4 ∧ ppu7.ly + 1 = 154 := by
    refine ⟨by decide, rfl, by decide, by decide⟩
  refine ⟨?_, (h.2 hcond).1⟩
  rw [h.1, if_pos hcond]

/-! Claim C10. -/

theorem wadd8_lt (a b : Nat) : wadd8 a b < 256 := Nat.mod_lt _ (by omega)

theorem wsub8_lt (a b : Nat) : wsub8 a b < 256 := Nat.mod_lt _ (by omega)

/-- C10: for every PPU state (any LCDC, scroll, window registers, any
`ly`, a window line counter and VRAM contents within their `u8` types)
and every column `x < 160`, both VRAM indices computed by
`render_background` — the tile-number index and the tile-row byte
address (whose second byte is at address + 1) — in both the unsigned
(base 0x0000) and signed (base 0x1000) tile-data modes, stay strictly
below 0x2000, so background/window rendering never indexes VRAM out
of bounds. -/
theorem c10_background_vram_indices_in_bounds (p : Ppu) (x : Nat) (_hx : x < 160)
    (hwl : p.window_line < 256) (hv : ∀ i, p.vram i < 256) :
    (p.bgIndices x).1 < 0x2000 ∧ (p.bgIndices x).2 < 0x2000 ∧
      (p.bgIndices x).2 + 1 < 0x2000 := by
  have hcoords : (p.bgCoords x).1 < 256 ∧ (p.bgCoords x).2.1 < 256 ∧
      ((p.bgCoords x).2.2 = 0x1800 ∨ (p.bgCoords x).2.2 = 0x1C00) := by
    unfold Ppu.bgCoords Ppu.win_map Ppu.bgd_map
    split_ifs <;>
      exact ⟨by first | exact wsub8_lt _ _ | exact wadd8_lt _ _,
             by first | exact hwl | exact wadd8_lt _ _,
             by dsimp only; omega⟩
  obtain ⟨hmx, hmy, hmap⟩ := hcoords
  have h1 : tile_number_index (p.bgCoords x).2.2 (p.bgCoords x).1 (p.bgCoords x).2.1
      < 0x2000 := by
    unfold tile_number_index
    set a := Nat.land ((p.bgCoords x).2.1 / 8 * 32) 0x3FF with ha
    set b := Nat.land ((p.bgCoords x).1 / 8) 0x1F with hb
    have ha' : a ≤ (p.bgCoords x).2.1 / 8 * 32 := Nat.and_le_left
    have hb' : b ≤ (p.bgCoords x).1 / 8 := Nat.and_le_left
    rcases hmap with h | h <;> rw [h] <;> omega
  have h2 : tile_row_address p.tile_data_base
      (p.vram (tile_number_index (p.bgCoords x).2.2 (p.bgCoords x).1 (p.bgCoords x).2.1))
      (Nat.land (p.bgCoords x).2.1 0x07) + 1 < 0x2000 := by
    have htn := hv (tile_number_index (p.bgCoords x).2.2 (p.bgCoords x).1 (p.bgCoords x).2.1)
    set tn := p.vram (tile_number_index (p.bgCoords x).2.2 (p.bgCoords x).1 (p.bgCoords x).2.1)
      with htn'
    have hty : Nat.land (p.bgCoords x).2.1 0x07 ≤ 7 := Nat.and_le_right
    set ty := Nat.land (p.bgCoords x).2.1 0x07 with hty'
    unfold tile_row_address Ppu.tile_data_base wadd16
    dsimp only
    split_ifs <;> omega
  refine ⟨?_, ?_, ?_⟩ <;> · unfold Ppu.bgIndices; dsimp only; omega

/-- C10, witness: the bounds instantiated at the all-zero PPU and
column 0. -/
theorem c10_background_vram_indices_in_bounds_witness :
    (ppu0.bgIndices 0).1 < 0x2000 ∧ (ppu0.bgIndices 0).2 < 0x2000 ∧
      (ppu0.bgIndices 0).2 + 1 < 0x2000 :=
  c10_background_vram_indices_in_bounds ppu0 0 (by decide) (by decide)
    (fun i => by simp [ppu0])

/-! Claim C5: sprite priority.  Observables: the four RGBA bytes of a
back-framebuffer pixel, the colour index and colour of a sprite at a given
screen column, and the strict draw-priority order realized by the
`sort_by` comparator. -/

theorem cmpNat_of_lt {a b : Nat} (h : a < b) : cmpNat a b = .lt := by
  unfold cmpNat
  rw [if_pos h]

theorem cmpNat_of_gt {a b : Nat} (h : b < a) : cmpNat a b = .gt := by
  unfold cmpNat
  rw [if_neg (show ¬ a < b by omega), if_pos h]

theorem cmpNat_of_eq {a b : Nat} (h : a = b) : cmpNat a b = .eq := by
  unfold cmpNat
  rw [if_neg (show ¬ a < b by omega), if_neg (show ¬ b < a by omega)]

/-- The comparator orders `a` strictly above `b` exactly when `a` has
draw priority over `b`. -/
theorem spriteCmp_gt_iff (a b : Nat × Sprite) :
    spriteCmp a b = .gt ↔ spriteBelow a b := by
  unfold spriteCmp
  dsimp only
  rcases Nat.lt_trichotomy a.2.x b.2.x with h | h | h
  · rw [cmpNat_of_lt h]
    simp [ordSwap, spriteBelow, h]
  · rw [cmpNat_of_eq h]
    rcases Nat.lt_trichotomy a.1 b.1 with h2 | h2 | h2
    · rw [cmpNat_of_lt h2]; simp [ordSwap, spriteBelow]; omega
    · rw [cmpNat_of_eq h2]; simp [ordSwap, spriteBelow]; omega
    · rw [cmpNat_of_gt h2]; simp [ordSwap, spriteBelow]; omega
  · rw [cmpNat_of_gt h]
    simp [ordSwap, spriteBelow]
    omega

theorem spriteBelow_asymm {a b : Nat × Sprite} (h : spriteBelow a b) :
    ¬ spriteBelow b a := by
  unfold spriteBelow at *
  omega

theorem spriteBelow_strict {a b : Nat × Sprite} (h1 : ¬ spriteBelow a b)
    (h2 : a.1 ≠ b.1) : spriteBelow b a := by
  unfold spriteBelow at *
  omega

theorem spriteCmp_asymm (a b : Nat × Sprite) (h : spriteCmp a b = .gt) :
    spriteCmp b a ≠ .gt := by
  intro hc
  rw [spriteCmp_gt_iff] at h hc
  exact spriteBelow_asymm h hc

theorem spriteCmp_trans (a b c : Nat × Sprite) (h1 : spriteCmp a b ≠ .gt)
    (h2 : spriteCmp b c ≠ .gt) : spriteCmp a c ≠ .gt := by
  intro hc
  rw [spriteCmp_gt_iff] at hc
  have h1' : ¬ spriteBelow a b := fun hx => h1 ((spriteCmp_gt_iff a b).2 hx)
  have h2' : ¬ spriteBelow b c := fun hx => h2 ((spriteCmp_gt_iff b c).2 hx)
  unfold spriteBelow at *
  omega

/-! Sorting: permutation and sortedness of the stable insertion sort. -/

theorem mem_insertCmp (cmp : α → α → Ordering) (a x : α) :
    ∀ l : List α, x ∈ insertCmp cmp a l ↔ x = a ∨ x ∈ l := by
  intro l
  induction l with
  | nil => simp [insertCmp]
  | cons b t ih =>
    unfold insertCmp
    split_ifs <;> simp [ih] <;> tauto

theorem perm_insertCmp (cmp : α → α → Ordering) (a : α) :
    ∀ l : List α, List.Perm (insertCmp cmp a l) (a :: l) := by
  intro l
  induction l with
  | nil => exact .refl _
  | cons b t ih =>
    unfold insertCmp
    split_ifs
    · exact (ih.cons b).trans (List.Perm.swap a b t)
    · exact .refl _

theorem sortCmp_perm (cmp : α → α → Ordering) :
    ∀ l : List α, List.Perm (sortCmp cmp l) l
  | [] => .refl _
  | a :: l =>
    (perm_insertCmp cmp a (sortCmp cmp l)).trans ((sortCmp_perm cmp l).cons a)

theorem pairwise_insertCmp (cmp : α → α → Ordering)
    (hasym : ∀ x y, cmp x y = .gt → cmp y x ≠ .gt)
    (htrans : ∀ x y z, cmp x y ≠ .gt → cmp y z ≠ .gt → cmp x z ≠ .gt) (a : α) :
    ∀ l : List α, l.Pairwise (fun x y => cmp x y ≠ .gt) →
      (insertCmp cmp a l).Pairwise (fun x y => cmp x y ≠ .gt) := by
  intro l
  induction l with
  | nil => intro _; simp [insertCmp]
  | cons b t ih =>
    intro hp
    rcases List.pairwise_cons.1 hp with ⟨hb, ht⟩
    unfold insertCmp
    split_ifs with h
    · refine List.pairwise_cons.2 ⟨?_, ih ht⟩
      intro x hx
      rcases (mem_insertCmp cmp a x t).1 hx with rfl | hx'
      · exact hasym _ _ h
      · exact hb x hx'
    · refine List.pairwise_cons.2 ⟨?_, hp⟩
      intro x hx
      rcases List.mem_cons.1 hx with rfl | hx'
      · exact h
      · exact htrans a b x h (hb x hx')

theorem pairwise_sortCmp (cmp : α → α → Ordering)
    (hasym : ∀ x y, cmp x y = .gt → cmp y x ≠ .gt)
    (htrans : ∀ x y z, cmp x y ≠ .gt → cmp y z ≠ .gt → cmp x z ≠ .gt) :
    ∀ l : List α, (sortCmp cmp l).Pairwise (fun x y => cmp x y ≠ .gt)
  | [] => .nil
  | a :: l =>
    pairwise_insertCmp cmp hasym htrans a (sortCmp cmp l)
      (pairwise_sortCmp cmp hasym htrans l)

/-! Enumeration indices are strictly increasing, hence distinct. -/

theorem enumFromN_mem_le : ∀ (l : List α) (n : Nat) (x : Nat × α),
    x ∈ enumFromN n l → n ≤ x.1 := by
  intro l
  induction l with
  | nil => intro n x h; cases h
  | cons a t ih =>
    intro n x h
    rcases List.mem_cons.1 h with rfl | h'
    · exact Nat.le_refl n
    · exact Nat.le_of_succ_le (ih (n + 1) x h')

theorem enumFromN_pairwise : ∀ (l : List α) (n : Nat),
    (enumFromN n l).Pairwise (fun a b => a.1 < b.1) := by
  intro l
  induction l with
  | nil => intro n; exact .nil
  | cons a t ih =>
    intro n
    refine List.pairwise_cons.2 ⟨?_, ih (n + 1)⟩
    intro x hx
    exact Nat.lt_of_lt_of_le (Nat.lt_succ_self n) (enumFromN_mem_le t (n + 1) x hx)

/-- The sorted draw list is strictly decreasing in draw priority:
every earlier entry is drawn over by every later entry. -/
theorem sorted_sprites_pairwise (p : Ppu) :
    (sortCmp spriteCmp p.collectSprites).Pairwise fun a b => spriteBelow b a := by
  have hle := pairwise_sortCmp spriteCmp spriteCmp_asymm spriteCmp_trans p.collectSprites
  have hfst : (p.collectSprites).Pairwise fun a b => a.1 ≠ b.1 :=
    (enumFromN_pairwise _ 0).imp fun h => Nat.ne_of_lt h
  have hfst' : (sortCmp spriteCmp p.collectSprites).Pairwise fun a b => a.1 ≠ b.1 :=
    ((sortCmp_perm spriteCmp p.collectSprites).pairwise_iff fun h => Ne.symm h).2 hfst
  exact (hle.and hfst').imp fun {a b} h =>
    spriteBelow_strict (fun hx => h.1 ((spriteCmp_gt_iff a b).2 hx)) h.2

/-! Pixel-level effect of the sprite draw loop. -/

theorem Ppu.backOnly_ly {p q : Ppu} (h : p.backOnly q) : q.ly = p.ly := by rw [h]

theorem Ppu.backOnly_vram {p q : Ppu} (h : p.backOnly q) : q.vram = p.vram := by rw [h]

theorem Ppu.backOnly_tileY {p q : Ppu} (h : p.backOnly q) (s : Sprite) :
    q.spriteTileY s = p.spriteTileY s := by rw [h]; rfl

theorem Ppu.backOnly_palette {p q : Ppu} (h : p.backOnly q) (flags ci : Nat) :
    q.spritePaletteColour flags ci = p.spritePaletteColour flags ci := by rw [h]; rfl

/-- Writing: `draw_pixel` writes exactly its four colour bytes at its own
pixel. -/
theorem Ppu.draw_pixel_pixel_eq (p : Ppu) (x y colour : Nat) :
    framebufferPixel (p.draw_pixel x y colour).back_framebuffer y x = colourBytes colour := by
  unfold Ppu.draw_pixel framebufferPixel colourBytes
  dsimp only
  simp only [Prod.mk.injEq]
  refine ⟨?_, ?_, ?_, ?_⟩ <;> · split_ifs <;> first | rfl | omega

/-- Locality: `draw_pixel` leaves every other column of the same row
untouched. -/
theorem Ppu.draw_pixel_pixel_ne (p : Ppu) (x y colour c : Nat) (h : c ≠ x) :
    framebufferPixel (p.draw_pixel x y colour).back_framebuffer y c =
      framebufferPixel p.back_framebuffer y c := by
  unfold Ppu.draw_pixel framebufferPixel
  dsimp only
  simp only [Prod.mk.injEq]
  refine ⟨?_, ?_, ?_, ?_⟩ <;> · split_ifs <;> first | rfl | omega

/-- A column iteration whose pixel is in range and opaque, on a sprite
with the background-priority flag clear, writes its colour at its
screen column. -/
theorem Ppu.drawSpriteCol_pixel_hit (p : Ppu) (s : Sprite) (lsb msb x c : Nat)
    (h7 : s.flags.testBit 7 = false) (hx : wadd8 s.x x = c) (hc : c ≤ 160)
    (hci : spriteColourIndexBits s.flags lsb msb x ≠ 0) :
    framebufferPixel (p.drawSpriteCol s lsb msb x).back_framebuffer p.ly c =
      colourBytes (p.spritePaletteColour s.flags (spriteColourIndexBits s.flags lsb msb x)) := by
  unfold Ppu.drawSpriteCol
  dsimp only
  rw [hx, if_pos hc, if_pos hci, if_pos (by simp [h7])]
  exact Ppu.draw_pixel_pixel_eq p c p.ly _

/-- A column iteration that is out of range, transparent, or lands on
a different screen column leaves the pixel of column `c` untouched. -/
theorem Ppu.drawSpriteCol_pixel_miss (p : Ppu) (s : Sprite) (lsb msb x c : Nat)
    (h : ¬(wadd8 s.x x = c ∧ c ≤ 160 ∧ spriteColourIndexBits s.flags lsb msb x ≠ 0)) :
    framebufferPixel (p.drawSpriteCol s lsb msb x).back_framebuffer p.ly c =
      framebufferPixel p.back_framebuffer p.ly c := by
  unfold Ppu.drawSpriteCol
  dsimp only
  by_cases h1 : wadd8 s.x x ≤ 160
  · rw [if_pos h1]
    by_cases h2 : spriteColourIndexBits s.flags lsb msb x ≠ 0
    · rw [if_pos h2]
      by_cases h3 : wadd8 s.x x = c
      · exact absurd ⟨h3, h3 ▸ h1, h2⟩ h
      · split_ifs <;>
          first
            | rfl
            | exact Ppu.draw_pixel_pixel_ne p _ p.ly _ c fun hh => h3 hh.symm
    · rw [if_neg h2]
  · rw [if_neg h1]

/-- The unique column offset covering screen column `c`. -/
theorem hit_col_eq (s : Sprite) (x c : Nat) (hx : x < 8) (hc : c < 256)
    (h : wadd8 s.x x = c) : x = spriteHitCol s c := by
  unfold wadd8 spriteHitCol wsub8 at *
  omega

theorem hit_col_complete (s : Sprite) (c : Nat) (hc : c < 256)
    (_hcol : spriteHitCol s c < 8) : wadd8 s.x (spriteHitCol s c) = c := by
  unfold wadd8 spriteHitCol wsub8 at *
  omega

/-- Pixel-level effect of the 8-column loop of one sprite (with the
background-priority flag clear): column `c` receives the colour of the
sprite at its hit offset exactly when some in-range opaque column
lands on `c`, and is untouched otherwise. -/
theorem foldl_cols_pixel (s : Sprite) (lsb msb : Nat) (h7 : s.flags.testBit 7 = false)
    (c : Nat) (p₀ : Ppu) :
    ∀ (xs : List Nat) (q : Ppu), p₀.backOnly q → (∀ x ∈ xs, x < 8) → xs.Nodup →
      framebufferPixel
          ((xs.foldl (fun r x => r.drawSpriteCol s lsb msb x) q).back_framebuffer) p₀.ly c =
        if ∃ x ∈ xs, wadd8 s.x x = c ∧ c ≤ 160 ∧ spriteColourIndexBits s.flags lsb msb x ≠ 0
        then colourBytes (p₀.spritePaletteColour s.flags
          (spriteColourIndexBits s.flags lsb msb (spriteHitCol s c)))
        else framebufferPixel q.back_framebuffer p₀.ly c := by
  intro xs
  induction xs with
  | nil =>
    intro q hq _ _
    rw [if_neg (by simp)]
    rfl
  | cons x xs ih =>
    intro q hq hlt hnd
    have hq' : p₀.backOnly (q.drawSpriteCol s lsb msb x) :=
      Ppu.backOnly_trans hq (Ppu.drawSpriteCol_backOnly q s lsb msb x)
    rw [List.foldl_cons]
    by_cases hx1 : wadd8 s.x x = c ∧ c ≤ 160 ∧ spriteColourIndexBits s.flags lsb msb x ≠ 0
    · obtain ⟨hxc, hc, hci⟩ := hx1
      have hx0 : x = spriteHitCol s c :=
        hit_col_eq s x c (hlt x (List.mem_cons_self x xs)) (by omega) hxc
      have hrest : ¬ ∃ x' ∈ xs,
          wadd8 s.x x' = c ∧ c ≤ 160 ∧ spriteColourIndexBits s.flags lsb msb x' ≠ 0 := by
        rintro ⟨x', hmem, hxc', -, -⟩
        have hx0' : x' = spriteHitCol s c :=
          hit_col_eq s x' c (hlt x' (List.mem_cons_of_mem x hmem)) (by omega) hxc'
        rw [← hx0] at hx0'
        exact (List.nodup_cons.1 hnd).1 (hx0' ▸ hmem)
      rw [ih _ hq' (fun y hy => hlt y (List.mem_cons_of_mem x hy)) (List.nodup_cons.1 hnd).2,
        if_neg hrest]
      have hh := Ppu.drawSpriteCol_pixel_hit q s lsb msb x c h7 hxc hc hci
      rw [Ppu.backOnly_ly hq] at hh
      rw [hh, Ppu.backOnly_palette hq, if_pos ⟨x, List.mem_cons_self x xs, hxc, hc, hci⟩, ← hx0]
    · have hh := Ppu.drawSpriteCol_pixel_miss q s lsb msb x c hx1
      rw [Ppu.backOnly_ly hq] at hh
      rw [ih _ hq' (fun y hy => hlt y (List.mem_cons_of_mem x hy)) (List.nodup_cons.1 hnd).2]
      by_cases h2 : ∃ x' ∈ xs,
          wadd8 s.x x' = c ∧ c ≤ 160 ∧ spriteColourIndexBits s.flags lsb msb x' ≠ 0
      · rw [if_pos h2]
        obtain ⟨x', hmem, hP⟩ := h2
        rw [if_pos ⟨x', List.mem_cons_of_mem x hmem, hP⟩]
      · rw [if_neg h2, hh, if_neg ?_]
        rintro ⟨x', hmem', hP⟩
        rcases List.mem_cons.1 hmem' with rfl | hm
        · exact hx1 hP
        · exact h2 ⟨x', hm, hP⟩

/-- Pixel-level effect of drawing one whole sprite (with the
background-priority flag clear): column `c` receives the sprite's
colour exactly when the sprite is solid at `c`. -/
theorem Ppu.drawSprite_pixel (p₀ q : Ppu) (s : Sprite) (c : Nat)
    (hq : p₀.backOnly q) (h7 : s.flags.testBit 7 = false) :
    framebufferPixel (q.drawSprite s).back_framebuffer p₀.ly c =
      if p₀.spriteSolidAt s c = true
      then colourBytes (p₀.spriteColour s (spriteHitCol s c))
      else framebufferPixel q.back_framebuffer p₀.ly c := by
  unfold Ppu.drawSprite
  dsimp only
  have hco := foldl_cols_pixel s (q.vram (s.tile_number * 16 + q.spriteTileY s * 2))
    (q.vram (s.tile_number * 16 + q.spriteTileY s * 2 + 1)) h7 c p₀ (List.range 8) q hq
    (fun x hx => List.mem_range.1 hx) (List.nodup_range 8)
  rw [Ppu.backOnly_vram hq, Ppu.backOnly_tileY hq] at hco
  rw [Ppu.backOnly_vram hq, Ppu.backOnly_tileY hq, hco]
  have hbits : ∀ z, spriteColourIndexBits s.flags
      (p₀.vram (s.tile_number * 16 + p₀.spriteTileY s * 2))
      (p₀.vram (s.tile_number * 16 + p₀.spriteTileY s * 2 + 1)) z =
      p₀.spriteColourIndex s z := fun z => rfl
  by_cases hs : p₀.spriteSolidAt s c = true
  · rw [if_pos hs]
    have hs' : spriteHitCol s c < 8 ∧ c ≤ 160 ∧ p₀.spriteColourIndex s (spriteHitCol s c) ≠ 0 := by
      have h := hs
      unfold Ppu.spriteSolidAt at h
      simp only [Bool.and_eq_true, decide_eq_true_eq, bne_iff_ne] at h
      exact ⟨h.1.1, h.1.2, h.2⟩
    rw [if_pos ⟨spriteHitCol s c, List.mem_range.2 hs'.1,
      hit_col_complete s c (by omega) hs'.1, hs'.2.1, by rw [hbits]; exact hs'.2.2⟩]
    rfl
  · rw [if_neg hs, if_neg ?_]
    rintro ⟨x, hmem, hxc, hc, hci⟩
    apply hs
    have hx0 : x = spriteHitCol s c := hit_col_eq s x c (List.mem_range.1 hmem) (by omega) hxc
    unfold Ppu.spriteSolidAt
    subst hx0
    simp only [Bool.and_eq_true, decide_eq_true_eq, bne_iff_ne]
    rw [hbits] at hci
    exact ⟨⟨List.mem_range.1 hmem, hc⟩, hci⟩

/-- Drawing a list of sprites none of which is solid at `c` leaves the
pixel of column `c` untouched. -/
theorem foldl_sprites_pixel_none (p₀ : Ppu) (c : Nat) :
    ∀ (L : List (Nat × Sprite)) (q : Ppu), p₀.backOnly q →
      (∀ e ∈ L, e.2.flags.testBit 7 = false) →
      (∀ e ∈ L, p₀.spriteSolidAt e.2 c = false) →
      framebufferPixel (L.foldl Ppu.spriteStep q).back_framebuffer p₀.ly c =
        framebufferPixel q.back_framebuffer p₀.ly c := by
  intro L
  induction L with
  | nil => intro q _ _ _; rfl
  | cons e L ih =>
    intro q hq h7 hns
    rw [List.foldl_cons]
    have hq' : p₀.backOnly (Ppu.spriteStep q e) :=
      Ppu.backOnly_trans hq (Ppu.drawSprite_backOnly q e.2)
    rw [ih _ hq' (fun b hb => h7 b (List.mem_cons_of_mem e hb))
      (fun b hb => hns b (List.mem_cons_of_mem e hb))]
    have hd := Ppu.drawSprite_pixel p₀ q e.2 c hq (h7 e (List.mem_cons_self e L))
    rw [if_neg (by rw [hns e (List.mem_cons_self e L)]; simp)] at hd
    exact hd

/-- Pixel-level effect of drawing a strictly priority-decreasing list
of sprites (all with the background-priority flag clear): if `(i, A)`
is in the list, solid at `c`, and has draw priority over every other
entry solid at `c`, then after the whole list is drawn column `c`
shows the colour of `A`. -/
theorem foldl_sprites_pixel_main (p₀ : Ppu) (c i : Nat) (A : Sprite) :
    ∀ (L : List (Nat × Sprite)) (q : Ppu), p₀.backOnly q →
      (∀ e ∈ L, e.2.flags.testBit 7 = false) →
      (i, A) ∈ L →
      p₀.spriteSolidAt A c = true →
      (∀ e ∈ L, e ≠ (i, A) → p₀.spriteSolidAt e.2 c = true → spriteBelow (i, A) e) →
      L.Pairwise (fun a b => spriteBelow b a) →
      framebufferPixel (L.foldl Ppu.spriteStep q).back_framebuffer p₀.ly c =
        colourBytes (p₀.spriteColour A (spriteHitCol A c)) := by
  intro L
  induction L with
  | nil => intro q _ _ hmem; cases hmem
  | cons e L ih =>
    intro q hq h7 hmem hsolid hmin hpw
    rcases List.pairwise_cons.1 hpw with ⟨hhead, htail⟩
    have hq' : p₀.backOnly (Ppu.spriteStep q e) :=
      Ppu.backOnly_trans hq (Ppu.drawSprite_backOnly q e.2)
    rw [List.foldl_cons]
    by_cases he : e = (i, A)
    · subst he
      have hnone : ∀ b ∈ L, p₀.spriteSolidAt b.2 c = false := by
        intro b hb
        by_contra hbs
        have hbs' : p₀.spriteSolidAt b.2 c = true := by
          cases hname : p₀.spriteSolidAt b.2 c
          · exact absurd hname hbs
          · rfl
        by_cases hbe : b = (i, A)
        · subst hbe
          exact spriteBelow_asymm (hhead _ hb) (hhead _ hb)
        · exact spriteBelow_asymm (hhead b hb) (hmin b (List.mem_cons_of_mem _ hb) hbe hbs')
      rw [foldl_sprites_pixel_none p₀ c L _ hq'
        (fun b hb => h7 b (List.mem_cons_of_mem _ hb)) hnone]
      have hd := Ppu.drawSprite_pixel p₀ q A c hq (h7 (i, A) (List.mem_cons_self _ L))
      rw [if_pos hsolid] at hd
      exact hd
    · rcases List.mem_cons.1 hmem with heq | hmem'
      · exact absurd heq.symm he
      · exact ih _ hq' (fun b hb => h7 b (List.mem_cons_of_mem e hb)) hmem' hsolid
          (fun b hb hbe hbs => hmin b (List.mem_cons_of_mem e hb) hbe hbs) htail

/-- C5, counterexample: on `ppu5` two sprites overlap at screen column
1 of line 0 with opaque pixels: OAM index 0 has OAM X = 7 (the lower
X) and OAM index 1 has OAM X = 9.  Because the draw order sorts the
wrapping-adjusted X (255 versus 1) rather than the OAM X, the sprite
with the HIGHER OAM X provides the visible pixel: the framebuffer
shows its OBP0 shade-2 colour 0x5E1210FF instead of the lower-X
sprite's shade-1 colour 0xD35600FF. -/
theorem c5_lower_oam_x_counterexample :
    ppu5.oam 1 = 7 ∧ ppu5.oam 5 = 9 ∧
      (ppu5.collectSprites).map (fun e => (e.1, e.2.x)) = [(0, 255), (1, 1)] ∧
      ppu5.spriteSolidAt ⟨0, 255, 0, 0⟩ 1 = true ∧
      ppu5.spriteSolidAt ⟨0, 1, 1, 0⟩ 1 = true ∧
      framebufferPixel ppu5.render_sprites.back_framebuffer 0 1 = colourBytes 0x5E1210FF ∧
      ppu5.spriteColour ⟨0, 255, 0, 0⟩ (spriteHitCol ⟨0, 255, 0, 0⟩ 1) = 0xD35600FF ∧
      colourBytes 0x5E1210FF ≠ colourBytes 0xD35600FF := by
  decide

/-- C5, amended: among the at most 10 sprites collected for the line,
all with the background-priority flag (bit 7) clear, whenever sprite
`(i, A)` puts an opaque in-range pixel on column `c` and has draw
priority over every other collected sprite opaque at `c` — priority
being lower wrapping-adjusted X `(OAM X - 8) mod 256`, ties broken by
lower collection index — the visible pixel at `c` comes from `A`.  For
sprites with OAM X ≥ 8 the adjusted order agrees with OAM X order, so
lower OAM X wins with ties to the earlier OAM entry; sprites with
OAM X in 1..7 wrap to adjusted X ≥ 249 and lose instead. -/
theorem c5_sprite_priority_amended (p : Ppu) (c i : Nat) (A : Sprite)
    (hen : p.lcdc.testBit 1 = true)
    (h7 : ∀ e ∈ p.collectSprites, e.2.flags.testBit 7 = false)
    (hmem : (i, A) ∈ p.collectSprites)
    (hsolid : p.spriteSolidAt A c = true)
    (hmin : ∀ e ∈ p.collectSprites, e ≠ (i, A) → p.spriteSolidAt e.2 c = true →
      spriteBelow (i, A) e) :
    framebufferPixel p.render_sprites.back_framebuffer p.ly c =
      colourBytes (p.spriteColour A (spriteHitCol A c)) := by
  unfold Ppu.render_sprites
  rw [if_neg (by simp [hen])]
  have hperm := sortCmp_perm spriteCmp p.collectSprites
  exact foldl_sprites_pixel_main p c i A (sortCmp spriteCmp p.collectSprites) p
    (Ppu.backOnly_refl p)
    (fun e he => h7 e (hperm.mem_iff.1 he))
    (hperm.mem_iff.2 hmem)
    hsolid
    (fun e he => hmin e (hperm.mem_iff.1 he))
    (sorted_sprites_pairwise p)

/-- C5, witness for the amended claim: the single collected sprite of
`ppu5w` trivially has top priority at column 8, and the rendered pixel
there is its colour. -/
theorem c5_sprite_priority_amended_witness :
    (ppu5w.lcdc.testBit 1 = true ∧ (0, (⟨0, 8, 0, 0⟩ : Sprite)) ∈ ppu5w.collectSprites ∧
      ppu5w.spriteSolidAt ⟨0, 8, 0, 0⟩ 8 = true) ∧
    framebufferPixel ppu5w.render_sprites.back_framebuffer ppu5w.ly 8 =
      colourBytes (ppu5w.spriteColour ⟨0, 8, 0, 0⟩ (spriteHitCol ⟨0, 8, 0, 0⟩ 8)) :=
  ⟨⟨by decide, by decide, by decide⟩,
    c5_sprite_priority_amended ppu5w 8 0 ⟨0, 8, 0, 0⟩ (by decide) (by decide) (by decide)
      (by decide) (by decide)⟩

end Argentum
